import Mathlib

/- Shallow embedding of the OpenWhoop CLI core (file `src/openwhoop/src/main.rs`):
   the DownloadHistory terminate loop, the DownloadHistory session control flow,
   the scan loop of `scan_command`, and the ReRun packet replay loop.
   External collaborators (the BLE transport, the database, the packet
   processor) are modelled as oracles or abstract parameters. -/

/-- Events observable from the DownloadHistory terminate loop
(main.rs lines 122 to 132): an `is_connected` check, a reconnect attempt,
a fixed backoff measured in seconds, and sending the `exit_high_freq_sync`
command. -/
inductive TermEvent where
  | checkConn : TermEvent
  | reconnect : TermEvent
  | backoff : Nat → TermEvent
  | sendExit : TermEvent
  deriving DecidableEq

/-- Oracle giving the outcome of each transport operation used by the
terminate loop, indexed by the loop iteration in which it is invoked. -/
structure TermOracle (ε : Type) where
  is_connected : Nat → Except ε Bool
  connect : Nat → Except ε Unit
  send_command : Nat → Except ε Unit

/-- Embedding of the terminate loop of the DownloadHistory branch
(main.rs 122-132): check `is_connected`; on `Ok(true)` send the
`exit_high_freq_sync` command and stop (propagating a send error via `?`);
otherwise run `connect` (propagating a connect error via `?`) and back off
one second before the next check. `fuel` bounds how many iterations are
unrolled; the result `none` means the loop is still running after `fuel`
iterations. -/
def terminateLoop {ε : Type} (o : TermOracle ε) :
    Nat → Nat → List TermEvent × Option (Except ε Unit)
  | 0, _ => ([], none)
  | fuel + 1, k =>
    match o.is_connected k with
    | Except.ok true =>
      ([TermEvent.checkConn, TermEvent.sendExit], some (o.send_command k))
    | _ =>
      match o.connect k with
      | Except.error e =>
        ([TermEvent.checkConn, TermEvent.reconnect], some (Except.error e))
      | Except.ok _ =>
        let r := terminateLoop o fuel (k + 1)
        (TermEvent.checkConn :: TermEvent.reconnect :: TermEvent.backoff 1 :: r.1, r.2)

/-- Trace of one unsuccessful terminate-loop iteration: a failed check,
a reconnect, and the fixed one second backoff. -/
def retryRound : List TermEvent :=
  [TermEvent.checkConn, TermEvent.reconnect, TermEvent.backoff 1]

/-- Trace of `n` consecutive unsuccessful terminate-loop iterations. -/
def retryRounds : Nat → List TermEvent
  | 0 => []
  | n + 1 => retryRound ++ retryRounds n

/-- Collapse an `is_connected` outcome to the two behaviors the loop
distinguishes: `Ok(true)` stays itself, anything else acts as `Ok(false)`. -/
def normCheck {ε : Type} (r : Except ε Bool) : Except ε Bool :=
  match r with
  | Except.ok true => Except.ok true
  | _ => Except.ok false

/-- The oracle with every `is_connected` outcome collapsed by `normCheck`. -/
def normOracle {ε : Type} (o : TermOracle ε) : TermOracle ε :=
  ⟨fun k => normCheck (o.is_connected k), o.connect, o.send_command⟩

/-- Events observable from one DownloadHistory session (main.rs 110-134),
starting at the initial `connect` call. -/
inductive SessEvent where
  | connectEv : SessEvent
  | initEv : SessEvent
  | syncEv : SessEvent
  | logSyncErrorEv : SessEvent
  | termEv : TermEvent → SessEvent
  deriving DecidableEq

/-- Oracle giving the outcomes of the device operations of one
DownloadHistory session. -/
structure SessOracle (ε : Type) where
  connect : Except ε Unit
  init_handshake : Except ε Unit
  sync_history : Except ε Unit
  term : TermOracle ε

/-- Embedding of the DownloadHistory branch of `main` (main.rs 110-134)
from the initial `connect` on: `connect` and `initialize` propagate errors
via `?`; a `sync_history` error is logged (event `logSyncErrorEv`) and not
propagated; then the terminate loop runs and its outcome is the outcome of
the session. -/
def downloadHistory {ε : Type} (o : SessOracle ε) (fuel : Nat) :
    List SessEvent × Option (Except ε Unit) :=
  match o.connect with
  | Except.error e => ([SessEvent.connectEv], some (Except.error e))
  | Except.ok _ =>
    match o.init_handshake with
    | Except.error e => ([SessEvent.connectEv, SessEvent.initEv], some (Except.error e))
    | Except.ok _ =>
      let syncEvs : List SessEvent :=
        match o.sync_history with
        | Except.error _ => [SessEvent.syncEv, SessEvent.logSyncErrorEv]
        | Except.ok _ => [SessEvent.syncEv]
      let t := terminateLoop o.term fuel 0
      ([SessEvent.connectEv, SessEvent.initEv] ++ syncEvs
         ++ t.1.map SessEvent.termEv, t.2)

/-- Advertisement data of one discovered peripheral, as read from
`peripheral.properties()` (service identifiers, address, local name, rssi).
Names and addresses are modelled as numbers, both opaque to the logic. -/
structure PeriphProps where
  services : List Nat
  addr : Nat
  localName : Option Nat
  rssi : Option Int
  deriving DecidableEq

/-- One discovered peripheral: `properties()` can return nothing, in which
case `scan_command` skips the entry. `pid` is the identity of the
peripheral object. -/
structure Periph where
  pid : Nat
  props : Option PeriphProps
  deriving DecidableEq

/-- One observation printed by the listing branch of `scan_command`
(main.rs 236-239): address, local name and rssi. -/
structure ScanObs where
  addr : Nat
  localName : Option Nat
  rssi : Option Int
  deriving DecidableEq

/-- Modelled from the spec: the protocol service identifier `WHOOP_SERVICE`
is a constant of the external `whoop` crate; its concrete UUID value is
opaque to this embedding. -/
def WHOOP_SERVICE : Nat := 97

/-- The observation printed for advertisement data `pr`. -/
def mkObs (pr : PeriphProps) : ScanObs := ⟨pr.addr, pr.localName, pr.rssi⟩

/-- Embedding of one pass over `adapter.peripherals()` inside the
`scan_command` loop (main.rs 226-246): entries without properties are
skipped; entries whose services do not contain `WHOOP_SERVICE` are skipped;
with no target, an observation is printed and scanning continues; with a
target, the first entry whose address equals the target is returned. -/
def scanPoll (target : Option Nat) : List Periph → List ScanObs × Option Periph
  | [] => ([], none)
  | p :: rest =>
    match p.props with
    | none => scanPoll target rest
    | some pr =>
      if WHOOP_SERVICE ∈ pr.services then
        match target with
        | none =>
          let r := scanPoll target rest
          (mkObs pr :: r.1, r.2)
        | some t =>
          if pr.addr = t then ([], some p) else scanPoll target rest
      else scanPoll target rest

/-- Embedding of the `scan_command` polling loop (main.rs 223-249): poll the
adapter, return the found peripheral in targeted mode, otherwise collect the
printed observations, sleep one second, and poll again. `polls` gives the
adapter answer for each one second poll; `fuel` bounds how many polls are
unrolled (the listing loop itself never terminates). -/
def scanLoop (target : Option Nat) (polls : Nat → List Periph) :
    Nat → Nat → List ScanObs × Option Periph
  | 0, _ => ([], none)
  | fuel + 1, k =>
    let r := scanPoll target (polls k)
    match r.2 with
    | some p => (r.1, some p)
    | none =>
      let rest := scanLoop target polls fuel (k + 1)
      (r.1 ++ rest.1, rest.2)

/-- Number of polls among `fuel` polls starting at index `k` whose answer
contains the peripheral `p`. -/
def appearances (polls : Nat → List Periph) (p : Periph) : Nat → Nat → Nat
  | 0, _ => 0
  | fuel + 1, k => (if p ∈ polls k then 1 else 0) + appearances polls p fuel (k + 1)

/-- A stored packet: a store assigned id and an opaque payload. -/
structure RawPacket where
  id : Nat
  payload : List Nat
  deriving DecidableEq

/-- Modelled from the spec: `DatabaseHandler::get_packets` (the operation
`read_from(id, limit)` of spec section 4.2) is not under src; per the spec it
returns the stored packets with id greater than the cursor, in ascending id
order, at most `limit` entries. The store list models the packet table in id
order. -/
def get_packets (store : List RawPacket) (cursor limit : Nat) : List RawPacket :=
  (store.filter (fun p => decide (cursor < p.id))).take limit

/-- The packets of the store with id greater than the cursor. -/
def pendingPackets (store : List RawPacket) (cursor : Nat) : List RawPacket :=
  store.filter (fun p => decide (cursor < p.id))

/-- The store invariant of spec section 3: packet ids are strictly
increasing along the store. -/
def StoreSorted (store : List RawPacket) : Prop :=
  List.Pairwise (fun a b => a.id < b.id) store

/-- Embedding of the inner `for packet in packets` loop of ReRun
(main.rs 145-148): the cursor is assigned `packet.id` and then
`handle_packet` runs; an error aborts the pass via `?`. Returns the cursor
after the (possibly aborted) page, the ids of the packets whose processing
succeeded, and the processor outcome. The packet processor `proc` is
abstract (spec section 4.3). -/
def processPage {σ ε : Type} (proc : σ → RawPacket → Except ε σ) :
    Nat → σ → List RawPacket → Nat × List Nat × Except ε σ
  | cur, _s, [] => (cur, [], Except.ok _s)
  | _, s, p :: rest =>
    match proc s p with
    | Except.error e => (p.id, [], Except.error e)
    | Except.ok s' =>
      let r := processPage proc p.id s' rest
      (r.1, p.id :: r.2.1, r.2.2)

/-- Embedding of the ReRun outer loop (main.rs 138-151): read a page of
packets after the cursor; stop on an empty page; otherwise process the page
and continue. `fuel` bounds how many pages are read; `none` means the loop
is still running after `fuel` pages. -/
def reRunLoop {σ ε : Type} (proc : σ → RawPacket → Except ε σ)
    (store : List RawPacket) (limit : Nat) :
    Nat → Nat → σ → Option (Nat × List Nat × Except ε σ)
  | 0, _, _ => none
  | fuel + 1, cur, s =>
    let page := get_packets store cur limit
    if page.isEmpty then some (cur, [], Except.ok s)
    else
      let r := processPage proc cur s page
      match r.2.2 with
      | Except.error e => some (r.1, r.2.1, Except.error e)
      | Except.ok s' =>
        match reRunLoop proc store limit fuel r.1 s' with
        | none => none
        | some t => some (t.1, r.2.1 ++ t.2.1, t.2.2)

/-- The ReRun entry point (main.rs 138): the cursor starts at 0. -/
def reRunCommand {σ ε : Type} (proc : σ → RawPacket → Except ε σ)
    (store : List RawPacket) (limit fuel : Nat) (s : σ) :
    Option (Nat × List Nat × Except ε σ) :=
  reRunLoop proc store limit fuel 0 s

/-- A packet processor that always succeeds, computed by the pure step
function `f` (spec section 4.3 models `process` as a pure function of the
packet and the accumulated derived state). -/
def pureProc {σ : Type} (ε : Type) (f : σ → RawPacket → σ) :
    σ → RawPacket → Except ε σ :=
  fun s p => Except.ok (f s p)

/-- Concrete store with packet ids 1 to 10. -/
def store10 : List RawPacket :=
  [⟨1, []⟩, ⟨2, []⟩, ⟨3, []⟩, ⟨4, []⟩, ⟨5, []⟩, ⟨6, []⟩, ⟨7, []⟩, ⟨8, []⟩, ⟨9, []⟩, ⟨10, []⟩]

/-- Concrete store with packet ids 1 to 3. -/
def store3 : List RawPacket := [⟨1, []⟩, ⟨2, []⟩, ⟨3, []⟩]

/-- Concrete processor that fails exactly on packet id 2 and otherwise
records the processed id. -/
def procFail : List Nat → RawPacket → Except Unit (List Nat) :=
  fun s p => if p.id = 2 then Except.error () else Except.ok (s ++ [p.id])

/-- Concrete transport: disconnected for the first two checks, connected
from the third check on, all connects and sends succeed. -/
def oW1 : TermOracle Unit :=
  ⟨fun k => Except.ok (decide (2 ≤ k)), fun _ => Except.ok (), fun _ => Except.ok ()⟩

/-- Concrete transport: always disconnected and every reconnect attempt
fails. -/
def oCE6 : TermOracle Unit :=
  ⟨fun _ => Except.ok false, fun _ => Except.error (), fun _ => Except.ok ()⟩

/-- Concrete transport: always disconnected, reconnects succeed. -/
def oW6 : TermOracle Unit :=
  ⟨fun _ => Except.ok false, fun _ => Except.ok (), fun _ => Except.ok ()⟩

/-- Concrete transport: the first `is_connected` check fails with an error,
later checks report connected; connects and sends succeed. -/
def oW10 : TermOracle Unit :=
  ⟨fun k => if k = 0 then Except.error () else Except.ok true,
   fun _ => Except.ok (), fun _ => Except.ok ()⟩

/-- Concrete session: connect and initialization succeed, history sync
fails, terminate runs against `oW1`. -/
def sessW3 : SessOracle Unit := ⟨Except.ok (), Except.ok (), Except.error (), oW1⟩

/-- Concrete session: the initial connect fails. -/
def sessW8a : SessOracle Unit := ⟨Except.error (), Except.ok (), Except.ok (), oW1⟩

/-- Concrete session: connect succeeds, initialization fails. -/
def sessW8b : SessOracle Unit := ⟨Except.ok (), Except.error (), Except.ok (), oW1⟩

/-- Concrete advertisement with the required service and address 7. -/
def prGood : PeriphProps := ⟨[WHOOP_SERVICE], 7, none, none⟩

/-- Concrete peripheral advertising the required service. -/
def dGood : Periph := ⟨0, some prGood⟩

/-- Concrete peripheral with address 7 but without the required service. -/
def dNoSvc : Periph := ⟨1, some ⟨[], 7, none, none⟩⟩

/-- If from check index `k` on the transport reports disconnected `d` times
and then connected, with connects and sends succeeding, the loop trace is
`d` retry rounds followed by a successful check and the exit command. -/
theorem terminateLoop_retry_aux {ε : Type} (o : TermOracle ε) :
    ∀ (d k fuel : Nat),
      (∀ j, j < d → o.is_connected (k + j) = Except.ok false) →
      o.is_connected (k + d) = Except.ok true →
      (∀ j, o.connect j = Except.ok ()) →
      (∀ j, o.send_command j = Except.ok ()) →
      d < fuel →
      terminateLoop o fuel k =
        (retryRounds d ++ [TermEvent.checkConn, TermEvent.sendExit],
         some (Except.ok ())) := by
  intro d
  induction d with
  | zero =>
    intro k fuel hdis hcon hconn hsend hfuel
    cases fuel with
    | zero => omega
    | succ f =>
      have hk : o.is_connected k = Except.ok true := by simpa using hcon
      simp [terminateLoop, hk, hsend k, retryRounds]
  | succ d ih =>
    intro k fuel hdis hcon hconn hsend hfuel
    cases fuel with
    | zero => omega
    | succ f =>
      have hk : o.is_connected k = Except.ok false := by simpa using hdis 0 (by omega)
      have hrec := ih (k + 1) f
        (fun j hj => by
          have := hdis (j + 1) (by omega)
          simpa [Nat.add_assoc, Nat.add_comm 1 j] using this)
        (by
          have := hcon
          simpa [Nat.add_assoc, Nat.add_comm 1 d] using this)
        hconn hsend (by omega)
      simp [terminateLoop, hk, hconn k, hrec, retryRounds, retryRound]

/-- The trace of `n` retry rounds contains no send and `n` reconnects. -/
theorem retryRounds_counts (n : Nat) :
    (retryRounds n).count TermEvent.sendExit = 0 ∧
    (retryRounds n).count TermEvent.reconnect = n := by
  induction n with
  | zero => simp [retryRounds]
  | succ m ih =>
    simp [retryRounds, retryRound, List.count_append, List.count_cons, ih.1, ih.2]

/-- C1: against a transport whose `is_connected` reports disconnected for
the first `R` checks and connected thereafter, with all connects and sends
succeeding, the terminate step of a download-history session produces `R`
retry rounds (each a failed check, a reconnect, and the fixed one second
backoff before the next check) followed by one successful check and the
exit-high-frequency-sync command; exactly one send and exactly `R`
reconnects occur, and the loop ends successfully. -/
theorem c1_terminate_retry {ε : Type} (o : TermOracle ε) (R fuel : Nat)
    (hdis : ∀ k, k < R → o.is_connected k = Except.ok false)
    (hcon : ∀ k, R ≤ k → o.is_connected k = Except.ok true)
    (hconn : ∀ k, o.connect k = Except.ok ())
    (hsend : ∀ k, o.send_command k = Except.ok ())
    (hfuel : R < fuel) :
    terminateLoop o fuel 0 =
      (retryRounds R ++ [TermEvent.checkConn, TermEvent.sendExit],
       some (Except.ok ())) ∧
    (terminateLoop o fuel 0).1.count TermEvent.sendExit = 1 ∧
    (terminateLoop o fuel 0).1.count TermEvent.reconnect = R := by
  have htr := terminateLoop_retry_aux o R 0 fuel
    (fun j hj => by simpa using hdis j hj)
    (by simpa using hcon R (by omega))
    hconn hsend hfuel
  refine ⟨htr, ?_, ?_⟩
  · rw [htr]
    simp [List.count_append, (retryRounds_counts R).1]
  · rw [htr]
    simp [List.count_append, (retryRounds_counts R).2, List.count_cons]

/-- Witness for C1 at `R = 2` with the concrete transport `oW1`. -/
theorem c1_terminate_retry_witness :
    terminateLoop oW1 3 0 =
      (retryRounds 2 ++ [TermEvent.checkConn, TermEvent.sendExit],
       some (Except.ok ())) ∧
    (terminateLoop oW1 3 0).1.count TermEvent.sendExit = 1 ∧
    (terminateLoop oW1 3 0).1.count TermEvent.reconnect = 2 :=
  c1_terminate_retry oW1 2 3
    (fun k hk => by
      have : ¬ (2 ≤ k) := by omega
      simp [oW1, this])
    (fun k hk => by simp [oW1, hk])
    (fun _ => rfl) (fun _ => rfl) (by omega)

/-- C6 counterexample: against the transport `oCE6` (always disconnected,
every reconnect attempt fails) the terminate loop does not retry the failed
`connect`: it surfaces the transport error after a single reconnect attempt
and the exit-streaming command is never sent, refuting that the loop keeps
reconnecting until delivery for every sequence of transport outcomes. -/
theorem c6_counterexample :
    terminateLoop oCE6 5 0 =
      ([TermEvent.checkConn, TermEvent.reconnect], some (Except.error ())) ∧
    TermEvent.sendExit ∉ (terminateLoop oCE6 5 0).1 := by
  constructor
  · rfl
  · decide

/-- C6 amended: within the terminate loop only the `is_connected` check is
retried. While connects succeed and no check reports connected the loop is
unbounded, producing one retry round per iteration for any amount of fuel
and never finishing; but an error from a `connect` call inside the loop is
surfaced immediately and aborts the loop without sending the exit
command. -/
theorem c6_transport_errors_amended {ε : Type} (o : TermOracle ε) (fuel k : Nat) :
    ((∀ j, o.is_connected j ≠ Except.ok true) → (∀ j, o.connect j = Except.ok ()) →
      terminateLoop o fuel k = (retryRounds fuel, none)) ∧
    (∀ e, o.is_connected k ≠ Except.ok true → o.connect k = Except.error e →
      terminateLoop o (fuel + 1) k =
        ([TermEvent.checkConn, TermEvent.reconnect], some (Except.error e))) := by
  constructor
  · intro hnever hconn
    induction fuel generalizing k with
    | zero => simp [terminateLoop, retryRounds]
    | succ f ih =>
      rcases hk : o.is_connected k with e | b
      · simp [terminateLoop, hk, hconn k, ih (k + 1), retryRounds, retryRound]
      · cases b with
        | false => simp [terminateLoop, hk, hconn k, ih (k + 1), retryRounds, retryRound]
        | true => exact absurd hk (hnever k)
  · intro e hk hc
    rcases hk' : o.is_connected k with e' | b
    · simp [terminateLoop, hk', hc]
    · cases b with
      | false => simp [terminateLoop, hk', hc]
      | true => exact absurd hk' hk

/-- Witness for the amended C6: `oW6` (always disconnected, reconnects
succeed) loops for all of its fuel without finishing, and `oCE6` (first
reconnect fails) surfaces the error at once. -/
theorem c6_transport_errors_amended_witness :
    terminateLoop oW6 2 0 = (retryRounds 2, none) ∧
    terminateLoop oCE6 1 0 =
      ([TermEvent.checkConn, TermEvent.reconnect], some (Except.error ())) :=
  ⟨(c6_transport_errors_amended oW6 2 0).1
      (fun j => by simp [oW6]) (fun j => rfl),
   (c6_transport_errors_amended oCE6 0 0).2 ()
      (by simp [oCE6]) rfl⟩

/-- C10: the terminate loop treats an error from the `is_connected` check
exactly like a disconnected answer: collapsing every check error to
`Ok(false)` leaves the whole loop behavior (trace and outcome) unchanged,
in particular a check error makes the loop reconnect and take the one
second backoff rather than propagate that error; and the exit command is
sent only when some check actually returns `Ok(true)`. -/
theorem c10_check_error_like_false {ε : Type} (o : TermOracle ε) (fuel k : Nat) :
    terminateLoop (normOracle o) fuel k = terminateLoop o fuel k ∧
    (TermEvent.sendExit ∈ (terminateLoop o fuel k).1 →
      ∃ j, o.is_connected j = Except.ok true) := by
  have hnc : ∀ j, TermOracle.connect (normOracle o) j = o.connect j := fun _ => rfl
  induction fuel generalizing k with
  | zero => simp [terminateLoop]
  | succ f ih =>
    constructor
    · rcases hk : o.is_connected k with e | b
      · have hnk : TermOracle.is_connected (normOracle o) k = Except.ok false := by
          have h0 : TermOracle.is_connected (normOracle o) k
              = normCheck (o.is_connected k) := rfl
          rw [h0, hk]; rfl
        rcases hc : o.connect k with e' | u
        · simp [terminateLoop, hnk, hk, hnc, hc]
        · simp [terminateLoop, hnk, hk, hnc, hc, (ih (k + 1)).1]
      · cases b with
        | false =>
          have hnk : TermOracle.is_connected (normOracle o) k = Except.ok false := by
            have h0 : TermOracle.is_connected (normOracle o) k
                = normCheck (o.is_connected k) := rfl
            rw [h0, hk]; rfl
          rcases hc : o.connect k with e' | u
          · simp [terminateLoop, hnk, hk, hnc, hc]
          · simp [terminateLoop, hnk, hk, hnc, hc, (ih (k + 1)).1]
        | true =>
          have hnk : TermOracle.is_connected (normOracle o) k = Except.ok true := by
            have h0 : TermOracle.is_connected (normOracle o) k
                = normCheck (o.is_connected k) := rfl
            rw [h0, hk]; rfl
          have hns : TermOracle.send_command (normOracle o) k = o.send_command k := rfl
          simp [terminateLoop, hnk, hk, hns]
    · intro hmem
      rcases hk : o.is_connected k with e | b
      · rcases hc : o.connect k with e' | u
        · simp [terminateLoop, hk, hc] at hmem
        · simp [terminateLoop, hk, hc] at hmem
          exact (ih (k + 1)).2 hmem
      · cases b with
        | false =>
          rcases hc : o.connect k with e' | u
          · simp [terminateLoop, hk, hc] at hmem
          · simp [terminateLoop, hk, hc] at hmem
            exact (ih (k + 1)).2 hmem
        | true => exact ⟨k, hk⟩

/-- Witness for C10 with the concrete transport `oW10`, whose first check
fails with an error and whose second check reports connected. -/
theorem c10_check_error_like_false_witness :
    terminateLoop (normOracle oW10) 2 0 = terminateLoop oW10 2 0 ∧
    (∃ j, oW10.is_connected j = Except.ok true) :=
  ⟨(c10_check_error_like_false oW10 2 0).1,
   (c10_check_error_like_false oW10 2 0).2 (by decide)⟩

/-- C3: in a download-history session whose connect and initialization
succeed, a `sync_history` failure does not abort the session: the error is
logged (event `logSyncErrorEv`) and the terminate-and-retry loop still runs
afterwards, its trace and outcome becoming those of the session. -/
theorem c3_sync_failure_not_fatal {ε : Type} (o : SessOracle ε) (fuel : Nat) (e : ε)
    (hc : o.connect = Except.ok ()) (hi : o.init_handshake = Except.ok ())
    (hs : o.sync_history = Except.error e) :
    downloadHistory o fuel =
      ([SessEvent.connectEv, SessEvent.initEv, SessEvent.syncEv,
        SessEvent.logSyncErrorEv]
         ++ (terminateLoop o.term fuel 0).1.map SessEvent.termEv,
       (terminateLoop o.term fuel 0).2) := by
  simp [downloadHistory, hc, hi, hs]

/-- Witness for C3 with the concrete session `sessW3`, whose history sync
fails while the terminate loop succeeds after two reconnects. -/
theorem c3_sync_failure_not_fatal_witness :
    downloadHistory sessW3 3 =
      ([SessEvent.connectEv, SessEvent.initEv, SessEvent.syncEv,
        SessEvent.logSyncErrorEv]
         ++ (terminateLoop sessW3.term 3 0).1.map SessEvent.termEv,
       (terminateLoop sessW3.term 3 0).2) :=
  c3_sync_failure_not_fatal sessW3 3 () rfl rfl rfl

/-- C8: an error of the initial connect, or of the initialization step,
aborts the download-history session and is surfaced as the session outcome;
no further step runs, in particular the terminate loop is never reached and
nothing is retried. -/
theorem c8_connect_init_abort {ε : Type} (o : SessOracle ε) (fuel : Nat) (e : ε) :
    (o.connect = Except.error e →
      downloadHistory o fuel = ([SessEvent.connectEv], some (Except.error e))) ∧
    (o.connect = Except.ok () → o.init_handshake = Except.error e →
      downloadHistory o fuel =
        ([SessEvent.connectEv, SessEvent.initEv], some (Except.error e))) := by
  constructor
  · intro h
    simp [downloadHistory, h]
  · intro hc hi
    simp [downloadHistory, hc, hi]

/-- Witness for C8 with the concrete sessions `sessW8a` (connect fails) and
`sessW8b` (initialization fails). -/
theorem c8_connect_init_abort_witness :
    downloadHistory sessW8a 3 = ([SessEvent.connectEv], some (Except.error ())) ∧
    downloadHistory sessW8b 3 =
      ([SessEvent.connectEv, SessEvent.initEv], some (Except.error ())) :=
  ⟨(c8_connect_init_abort sessW8a 3 ()).1 rfl,
   (c8_connect_init_abort sessW8b 3 ()).2 rfl rfl⟩

/-- A peripheral returned by one poll pass has properties, advertises the
required service, and its address equals the target. -/
theorem scanPoll_found (target : Option Nat) :
    ∀ (l : List Periph) (q : Periph), (scanPoll target l).2 = some q →
      ∃ qr t, q.props = some qr ∧ WHOOP_SERVICE ∈ qr.services ∧
        target = some t ∧ qr.addr = t ∧ q ∈ l := by
  intro l
  induction l with
  | nil => intro q h; simp [scanPoll] at h
  | cons p rest ih =>
    intro q h
    rcases hp : p.props with _ | pr
    · rcases ih q (by simpa [scanPoll, hp] using h) with ⟨qr, t, h1, h2, h3, h4, h5⟩
      exact ⟨qr, t, h1, h2, h3, h4, List.mem_cons_of_mem p h5⟩
    · by_cases hsvc : WHOOP_SERVICE ∈ pr.services
      · cases target with
        | none =>
          rcases ih q (by simpa [scanPoll, hp, hsvc] using h) with ⟨qr, t, h1, h2, h3, h4, h5⟩
          exact ⟨qr, t, h1, h2, h3, h4, List.mem_cons_of_mem p h5⟩
        | some t =>
          by_cases haddr : pr.addr = t
          · have hq : q = p := by
              simpa [scanPoll, hp, hsvc, haddr] using h.symm
            exact ⟨pr, t, by rw [hq]; exact hp, hsvc, rfl, haddr, by rw [hq]; exact List.mem_cons_self p rest⟩
          · rcases ih q (by simpa [scanPoll, hp, hsvc, haddr] using h) with ⟨qr, t', h1, h2, h3, h4, h5⟩
            exact ⟨qr, t', h1, h2, h3, h4, List.mem_cons_of_mem p h5⟩
      · rcases ih q (by simpa [scanPoll, hp, hsvc] using h) with ⟨qr, t, h1, h2, h3, h4, h5⟩
        exact ⟨qr, t, h1, h2, h3, h4, List.mem_cons_of_mem p h5⟩

/-- Every observation emitted by one listing poll pass comes from a
peripheral of that poll whose advertisement carries the required service. -/
theorem scanPoll_emit :
    ∀ (l : List Periph) (ob : ScanObs), ob ∈ (scanPoll none l).1 →
      ∃ p pr, p ∈ l ∧ p.props = some pr ∧ WHOOP_SERVICE ∈ pr.services ∧
        ob = mkObs pr := by
  intro l
  induction l with
  | nil => intro ob h; simp [scanPoll] at h
  | cons p rest ih =>
    intro ob h
    rcases hp : p.props with _ | pr
    · rcases ih ob (by simpa [scanPoll, hp] using h) with ⟨q, qr, h1, h2, h3, h4⟩
      exact ⟨q, qr, List.mem_cons_of_mem p h1, h2, h3, h4⟩
    · by_cases hsvc : WHOOP_SERVICE ∈ pr.services
      · rcases (by simpa [scanPoll, hp, hsvc] using h : ob = mkObs pr ∨ ob ∈ (scanPoll none rest).1) with h0 | h0
        · exact ⟨p, pr, List.mem_cons_self p rest, hp, hsvc, h0⟩
        · rcases ih ob h0 with ⟨q, qr, h1, h2, h3, h4⟩
          exact ⟨q, qr, List.mem_cons_of_mem p h1, h2, h3, h4⟩
      · rcases ih ob (by simpa [scanPoll, hp, hsvc] using h) with ⟨q, qr, h1, h2, h3, h4⟩
        exact ⟨q, qr, List.mem_cons_of_mem p h1, h2, h3, h4⟩

/-- A listing poll pass emits the observation of every peripheral of the
poll that has properties and advertises the required service. -/
theorem scanPoll_emit_mem :
    ∀ (l : List Periph) (p : Periph) (pr : PeriphProps), p ∈ l →
      p.props = some pr → WHOOP_SERVICE ∈ pr.services →
      mkObs pr ∈ (scanPoll none l).1 := by
  intro l
  induction l with
  | nil => intro p pr h; simp at h
  | cons q rest ih =>
    intro p pr hmem hp hsvc
    rcases List.mem_cons.mp hmem with h0 | h0
    · subst h0
      simp [scanPoll, hp, hsvc]
    · rcases hq : q.props with _ | qr
      · simpa [scanPoll, hq] using ih p pr h0 hp hsvc
      · by_cases hqsvc : WHOOP_SERVICE ∈ qr.services
        · simp [scanPoll, hq, hqsvc]
          exact Or.inr (ih p pr h0 hp hsvc)
        · simpa [scanPoll, hq, hqsvc] using ih p pr h0 hp hsvc

/-- C4: over any sequence of polls, targeted discovery only ever returns a
peripheral that advertises the required service identifier and whose
address equals the target (hence an advertisement lacking the service is
never returned, even when its address matches, because the service filter
runs before the address comparison); and every observation emitted by
listing mode comes from an advertisement carrying the required service. -/
theorem c4_service_filter (polls : Nat → List Periph) (fuel k : Nat) :
    (∀ (t : Nat) (q : Periph), (scanLoop (some t) polls fuel k).2 = some q →
      ∃ qr, q.props = some qr ∧ WHOOP_SERVICE ∈ qr.services ∧ qr.addr = t ∧
        ∃ j, q ∈ polls j) ∧
    (∀ ob, ob ∈ (scanLoop none polls fuel k).1 →
      ∃ j p pr, p ∈ polls j ∧ p.props = some pr ∧
        WHOOP_SERVICE ∈ pr.services ∧ ob = mkObs pr) := by
  induction fuel generalizing k with
  | zero =>
    constructor
    · intro t q h; simp [scanLoop] at h
    · intro ob h; simp [scanLoop] at h
  | succ f ih =>
    constructor
    · intro t q h
      rcases hpoll : (scanPoll (some t) (polls k)).2 with _ | p
      · simp [scanLoop, hpoll] at h
        exact ((ih (k + 1)).1 t q h)
      · simp [scanLoop, hpoll] at h
        rcases scanPoll_found (some t) (polls k) p hpoll with ⟨qr, t', h1, h2, h3, h4, h5⟩
        rcases Option.some_inj.mp h3 with rfl
        subst h
        exact ⟨qr, h1, h2, h4, k, h5⟩
    · intro ob h
      rcases hpoll : (scanPoll none (polls k)).2 with _ | p
      · simp [scanLoop, hpoll] at h
        rcases h with h0 | h0
        · rcases scanPoll_emit (polls k) ob h0 with ⟨p, pr, h1, h2, h3, h4⟩
          exact ⟨k, p, pr, h1, h2, h3, h4⟩
        · exact (ih (k + 1)).2 ob h0
      · simp [scanLoop, hpoll] at h
        rcases scanPoll_emit (polls k) ob h with ⟨p, pr, h1, h2, h3, h4⟩
        exact ⟨k, p, pr, h1, h2, h3, h4⟩

/-- Witness for C4: with one poll listing `dNoSvc` (address 7, no service)
before `dGood` (address 7, with service), targeted discovery of address 7
returns a peripheral passing the service filter, and the one listing
observation comes from an advertisement with the service. -/
theorem c4_service_filter_witness :
    (∃ qr, dGood.props = some qr ∧ WHOOP_SERVICE ∈ qr.services ∧ qr.addr = 7 ∧
      ∃ j, dGood ∈ (fun (_ : Nat) => [dNoSvc, dGood]) j) ∧
    (∃ j p pr, p ∈ (fun (_ : Nat) => [dNoSvc, dGood]) j ∧ p.props = some pr ∧
      WHOOP_SERVICE ∈ pr.services ∧ mkObs prGood = mkObs pr) :=
  ⟨(c4_service_filter (fun _ => [dNoSvc, dGood]) 1 0).1 7 dGood (by decide),
   (c4_service_filter (fun _ => [dNoSvc, dGood]) 1 0).2 (mkObs prGood) (by decide)⟩

/-- In listing mode a poll pass never returns a peripheral. -/
theorem scanPoll_none_found : ∀ (l : List Periph), (scanPoll none l).2 = none := by
  intro l
  induction l with
  | nil => rfl
  | cons p rest ih =>
    rcases hp : p.props with _ | pr
    · simpa [scanPoll, hp] using ih
    · by_cases hsvc : WHOOP_SERVICE ∈ pr.services
      · simpa [scanPoll, hp, hsvc] using ih
      · simpa [scanPoll, hp, hsvc] using ih

/-- C7 counterexample: a device that stays visible for two consecutive
polls is printed twice by the listing branch, so the same device
observation is emitted more than once, refuting that each matching device
is emitted only when newly seen. -/
theorem c7_counterexample :
    (scanLoop none (fun _ => [dGood]) 2 0).1 = [mkObs prGood, mkObs prGood] ∧
    1 < List.count (mkObs prGood) (scanLoop none (fun _ => [dGood]) 2 0).1 := by
  constructor
  · rfl
  · decide

/-- C7 amended: the listing branch keeps no record of already seen devices;
a matching device (with properties carrying the required service) is
emitted once per poll in which it appears, so across the repeating one
second polls its observation is emitted at least as many times as the
number of polls listing it. -/
theorem c7_emitted_every_poll (polls : Nat → List Periph) (p : Periph)
    (pr : PeriphProps) (hp : p.props = some pr)
    (hsvc : WHOOP_SERVICE ∈ pr.services) :
    ∀ (fuel k : Nat),
      appearances polls p fuel k ≤
        List.count (mkObs pr) (scanLoop none polls fuel k).1 := by
  intro fuel
  induction fuel with
  | zero => intro k; simp [appearances]
  | succ f ih =>
    intro k
    have hfound := scanPoll_none_found (polls k)
    have hcnt :
        List.count (mkObs pr) (scanLoop none polls (f + 1) k).1 =
          List.count (mkObs pr) (scanPoll none (polls k)).1 +
            List.count (mkObs pr) (scanLoop none polls f (k + 1)).1 := by
      simp [scanLoop, hfound, List.count_append]
    rw [hcnt]
    by_cases hmem : p ∈ polls k
    · have h1 : 0 < List.count (mkObs pr) (scanPoll none (polls k)).1 :=
        List.count_pos_iff.mpr (scanPoll_emit_mem (polls k) p pr hmem hp hsvc)
      have h2 := ih (k + 1)
      simp [appearances, hmem]
      omega
    · have h2 := ih (k + 1)
      simp [appearances, hmem]
      omega

/-- Witness for the amended C7: the device `dGood` appears in both of two
polls and its observation is counted at least twice. -/
theorem c7_emitted_every_poll_witness :
    appearances (fun _ => [dGood]) dGood 2 0 ≤
      List.count (mkObs prGood) (scanLoop none (fun _ => [dGood]) 2 0).1 :=
  c7_emitted_every_poll (fun _ => [dGood]) dGood prGood rfl (by decide) 2 0

/-- The page read by `get_packets` is the first `limit` pending packets. -/
theorem get_packets_eq (store : List RawPacket) (cursor limit : Nat) :
    get_packets store cursor limit = (pendingPackets store cursor).take limit := rfl

/-- Running a page through an always succeeding processor visits every
packet: the cursor folds to the last id, all ids are reported processed,
and the state is the fold of the step function. -/
theorem processPage_pure {σ : Type} (f : σ → RawPacket → σ) :
    ∀ (l : List RawPacket) (cur : Nat) (s : σ),
      processPage (pureProc Unit f) cur s l =
        (l.foldl (fun _ p => p.id) cur, l.map RawPacket.id,
         Except.ok (l.foldl f s)) := by
  intro l
  induction l with
  | nil => intro cur s; simp [processPage]
  | cons p rest ih =>
    intro cur s
    simp [processPage, pureProc, ih p.id (f s p)]

/-- Folding the cursor update of the ReRun inner loop over a nonempty page
gives the id of the last packet of the page. -/
theorem foldl_lastId :
    ∀ (l : List RawPacket) (h : l ≠ []) (c : Nat),
      l.foldl (fun _ p => p.id) c = (l.getLast h).id := by
  intro l
  induction l with
  | nil => intro h; exact absurd rfl h
  | cons p rest ih =>
    intro h c
    cases rest with
    | nil => simp
    | cons q qs =>
      have hne : (q :: qs) ≠ [] := by simp
      rw [List.foldl_cons, List.getLast_cons hne]
      exact ih hne p.id

/-- In a strictly id sorted list every id is at most the last id. -/
theorem mem_id_le_getLast :
    ∀ (l : List RawPacket) (h : l ≠ []),
      List.Pairwise (fun a b : RawPacket => a.id < b.id) l →
      ∀ a ∈ l, a.id ≤ (l.getLast h).id := by
  intro l
  induction l with
  | nil => intro h; exact absurd rfl h
  | cons p rest ih =>
    intro h hp a ha
    cases rest with
    | nil =>
      have : a = p := by simpa using ha
      subst this
      simp
    | cons q qs =>
      have hne : (q :: qs) ≠ [] := by simp
      rw [List.getLast_cons hne]
      rcases List.mem_cons.mp ha with h0 | h0
      · subst h0
        have hmem := List.getLast_mem hne
        have := (List.pairwise_cons.mp hp).1 _ hmem
        omega
      · exact ih hne (List.pairwise_cons.mp hp).2 a h0

/-- If every packet of the first `limit` pending packets has id at most
`c'` and every later pending packet has id above `c'`, then the packets
pending after `c'` are exactly the pending packets beyond the page. -/
theorem filter_after_cursor (store : List RawPacket) (cur c' limit : Nat)
    (hcur : cur ≤ c')
    (hpage : ∀ a ∈ (pendingPackets store cur).take limit, a.id ≤ c')
    (hdrop : ∀ b ∈ (pendingPackets store cur).drop limit, c' < b.id) :
    pendingPackets store c' = (pendingPackets store cur).drop limit := by
  have hstep : ∀ a : RawPacket,
      (decide (c' < a.id) && decide (cur < a.id)) = decide (c' < a.id) := by
    intro a
    by_cases hlt : c' < a.id
    · have : cur < a.id := lt_of_le_of_lt hcur hlt
      simp [hlt, this]
    · simp [hlt]
  have h1 : ((pendingPackets store cur).take limit).filter
      (fun a => decide (c' < a.id)) = [] := by
    rw [List.filter_eq_nil_iff]
    intro a ha
    simp only [decide_eq_true_eq]
    exact Nat.not_lt.mpr (hpage a ha)
  have h2 : ((pendingPackets store cur).drop limit).filter
      (fun a => decide (c' < a.id)) = (pendingPackets store cur).drop limit :=
    List.filter_eq_self.mpr (fun b hb => decide_eq_true (hdrop b hb))
  calc pendingPackets store c'
      = store.filter (fun a => decide (c' < a.id) && decide (cur < a.id)) := by
        unfold pendingPackets
        exact List.filter_congr (fun a _ => (hstep a).symm)
    _ = (pendingPackets store cur).filter (fun a => decide (c' < a.id)) := by
        unfold pendingPackets
        rw [List.filter_filter]
    _ = ((pendingPackets store cur).take limit).filter (fun a => decide (c' < a.id))
          ++ ((pendingPackets store cur).drop limit).filter
              (fun a => decide (c' < a.id)) := by
        conv_lhs => rw [← List.take_append_drop limit (pendingPackets store cur)]
        rw [List.filter_append]
    _ = (pendingPackets store cur).drop limit := by
        rw [h1, h2, List.nil_append]

/-- With an always succeeding processor, a strictly sorted store, a positive
page size and enough fuel, the ReRun loop from any cursor processes exactly
the pending packets in order: the final cursor is the fold of the cursor
update, the processed ids are the pending ids, and the final state is the
fold of the step function over the pending packets. -/
theorem reRunLoop_pure {σ : Type} (f : σ → RawPacket → σ) (store : List RawPacket)
    (limit : Nat) (hs : StoreSorted store) (hlim : 0 < limit) :
    ∀ (fuel cur : Nat) (s : σ), (pendingPackets store cur).length < fuel →
      reRunLoop (pureProc Unit f) store limit fuel cur s =
        some ((pendingPackets store cur).foldl (fun _ p => p.id) cur,
              (pendingPackets store cur).map RawPacket.id,
              Except.ok ((pendingPackets store cur).foldl f s)) := by
  intro fuel
  induction fuel with
  | zero => intro cur s h; omega
  | succ fl ih =>
    intro cur s h
    by_cases hemp : pendingPackets store cur = []
    · have hpage : get_packets store cur limit = [] := by
        rw [get_packets_eq, hemp, List.take_nil]
      simp [reRunLoop, hpage, hemp]
    · have hne : (pendingPackets store cur).take limit ≠ [] := by
        intro h0
        rcases List.take_eq_nil_iff.mp h0 with h1 | h1
        · omega
        · exact hemp h1
      have hifc : ((pendingPackets store cur).take limit).isEmpty = false :=
        Bool.eq_false_iff.mpr (fun hT => hne (List.isEmpty_iff.mp hT))
      have hLp : List.Pairwise (fun a b : RawPacket => a.id < b.id)
          (pendingPackets store cur) := List.Pairwise.filter _ hs
      have happ := List.pairwise_append.mp (by
        rw [List.take_append_drop limit (pendingPackets store cur)]
        exact hLp)
      have hlast_mem : ((pendingPackets store cur).take limit).getLast hne ∈
          (pendingPackets store cur).take limit := List.getLast_mem hne
      have hcur_lt : cur <
          ((((pendingPackets store cur).take limit).getLast hne)).id := by
        have hm := List.mem_of_mem_take hlast_mem
        have := (List.mem_filter.mp hm).2
        simpa using this
      have hafter : pendingPackets store
            ((((pendingPackets store cur).take limit).getLast hne).id) =
          (pendingPackets store cur).drop limit :=
        filter_after_cursor store cur _ limit (Nat.le_of_lt hcur_lt)
          (fun a ha => mem_id_le_getLast _ hne happ.1 a ha)
          (fun b hb => happ.2.2 _ hlast_mem b hb)
      have hlen1 : 1 ≤ (pendingPackets store cur).length := by
        cases hpp : pendingPackets store cur with
        | nil => exact absurd hpp hemp
        | cons a l => simp [hpp]
      have hlen : (pendingPackets store
            ((((pendingPackets store cur).take limit).getLast hne).id)).length < fl := by
        rw [hafter, List.length_drop]
        omega
      have hfold : ((pendingPackets store cur).take limit).foldl
            (fun _ p => p.id) cur =
          (((pendingPackets store cur).take limit).getLast hne).id :=
        foldl_lastId _ hne cur
      have hrec := ih ((((pendingPackets store cur).take limit).getLast hne).id)
        (((pendingPackets store cur).take limit).foldl f s) hlen
      simp only [reRunLoop, get_packets_eq, hifc, Bool.false_eq_true, if_false,
        processPage_pure f, hfold, hrec, hafter]
      conv_rhs =>
        rw [← List.take_append_drop limit (pendingPackets store cur)]
      rw [List.foldl_append, List.foldl_append, List.map_append, hfold]

/-- If a page aborts with a processor error, the cursor returned for the
pass is the id of the very packet whose processing failed. -/
theorem processPage_error {σ ε : Type} (proc : σ → RawPacket → Except ε σ) :
    ∀ (l : List RawPacket) (cur : Nat) (s : σ) (c : Nat) (ids : List Nat) (e : ε),
      processPage proc cur s l = (c, ids, Except.error e) →
      ∃ p, p ∈ l ∧ p.id = c ∧ ∃ t, proc t p = Except.error e := by
  intro l
  induction l with
  | nil =>
    intro cur s c ids e h
    simp [processPage] at h
  | cons p rest ih =>
    intro cur s c ids e h
    rcases hp : proc s p with e' | s'
    · rw [show processPage proc cur s (p :: rest)
          = match proc s p with
            | Except.error e0 => (p.id, ([] : List Nat), Except.error e0)
            | Except.ok s' => ((processPage proc p.id s' rest).1,
                p.id :: (processPage proc p.id s' rest).2.1,
                (processPage proc p.id s' rest).2.2) from rfl, hp] at h
      simp only [Prod.mk.injEq, Except.error.injEq] at h
      exact ⟨p, List.mem_cons_self p rest, h.1, s, by rw [hp, h.2.2]⟩
    · rw [show processPage proc cur s (p :: rest)
          = match proc s p with
            | Except.error e0 => (p.id, ([] : List Nat), Except.error e0)
            | Except.ok s' => ((processPage proc p.id s' rest).1,
                p.id :: (processPage proc p.id s' rest).2.1,
                (processPage proc p.id s' rest).2.2) from rfl, hp] at h
      simp only [Prod.mk.injEq] at h
      have hrec := ih p.id s' (processPage proc p.id s' rest).1
        (processPage proc p.id s' rest).2.1 e (by rw [← h.2.2])
      rcases hrec with ⟨q, hq1, hq2, t, ht⟩
      exact ⟨q, List.mem_cons_of_mem p hq1, hq2.trans h.1, t, ht⟩

/-- C2 counterexample: replaying the store with ids 1, 2, 3 against a
processor that fails exactly on id 2 (a pass starting at cursor 0) ends the
aborted pass with cursor 2 — the id of the failing packet — and not 1, the
id of the last successfully processed packet, refuting that the cursor is
set only after processing succeeds. -/
theorem c2_counterexample :
    reRunCommand procFail store3 10 4 [] = some (2, [1], Except.error ()) ∧
    (2 : Nat) ≠ 1 :=
  ⟨rfl, by decide⟩

/-- C2 amended: in the ReRun inner loop the cursor is assigned the id of a
packet immediately BEFORE that packet is processed; hence when a replay
pass aborts with a processor error, the cursor of the aborted pass equals
the id of the packet whose processing failed (one past the last
successfully processed packet), never the id of the last success. -/
theorem c2_cursor_amended {σ ε : Type} (proc : σ → RawPacket → Except ε σ)
    (store : List RawPacket) (limit : Nat) :
    ∀ (fuel cur : Nat) (s : σ) (c : Nat) (ids : List Nat) (e : ε),
      reRunLoop proc store limit fuel cur s = some (c, ids, Except.error e) →
      ∃ p, p ∈ store ∧ p.id = c ∧ ∃ t, proc t p = Except.error e := by
  intro fuel
  induction fuel with
  | zero =>
    intro cur s c ids e h
    simp [reRunLoop] at h
  | succ fl ih =>
    intro cur s c ids e h
    by_cases hemp : (get_packets store cur limit).isEmpty = true
    · simp [reRunLoop, hemp] at h
    · rcases hex : (processPage proc cur s (get_packets store cur limit)).2.2 with e' | s'
      · simp [reRunLoop, hemp, hex] at h
        have heq : processPage proc cur s (get_packets store cur limit)
            = ((processPage proc cur s (get_packets store cur limit)).1,
               (processPage proc cur s (get_packets store cur limit)).2.1,
               Except.error e) := by
          rw [← h.2.2, ← hex]
        rcases processPage_error proc (get_packets store cur limit) cur s _ _ e heq
          with ⟨p, hp1, hp2, t, ht⟩
        have hmem : p ∈ store :=
          List.mem_of_mem_filter (List.mem_of_mem_take hp1)
        exact ⟨p, hmem, hp2.trans h.1, t, ht⟩
      · rcases hrl : reRunLoop proc store limit fl
            (processPage proc cur s (get_packets store cur limit)).1 s' with _ | t
        · simp [reRunLoop, hemp, hex, hrl] at h
        · simp [reRunLoop, hemp, hex, hrl] at h
          rcases ih (processPage proc cur s (get_packets store cur limit)).1 s'
            t.1 t.2.1 e (by rw [hrl, ← h.2.2]) with ⟨p, hp1, hp2, u, hu⟩
          exact ⟨p, hp1, by rw [hp2, h.1], u, hu⟩

/-- Witness for the amended C2 at the concrete failing replay of
`c2_counterexample`: the cursor 2 is the id of the packet on which the
processor failed. -/
theorem c2_cursor_amended_witness :
    ∃ p, p ∈ store3 ∧ p.id = 2 ∧ ∃ t, procFail t p = Except.error () :=
  c2_cursor_amended procFail store3 10 4 0 [] 2 [1] () rfl

/-- C5: the ReRun entry point starts at cursor 0; the loop stops exactly
when a read returns an empty page; and on the store with ids 1 to 10, a
pass whose read starts after id 5 processes ids 6, 7, 8, 9, 10 in that
order, ends with cursor 10 and folds the processor over exactly those
packets — for every positive page size and enough fuel. -/
theorem c5_rerun_full_replay :
    (∀ (σ ε : Type) (proc : σ → RawPacket → Except ε σ) (store : List RawPacket)
        (limit fuel : Nat) (s : σ),
      reRunCommand proc store limit fuel s = reRunLoop proc store limit fuel 0 s) ∧
    (∀ (σ ε : Type) (proc : σ → RawPacket → Except ε σ) (store : List RawPacket)
        (limit fuel cur : Nat) (s : σ), get_packets store cur limit = [] →
      reRunLoop proc store limit (fuel + 1) cur s = some (cur, [], Except.ok s)) ∧
    (∀ (σ : Type) (f : σ → RawPacket → σ) (s : σ) (limit fuel : Nat),
      0 < limit → 5 < fuel →
      reRunLoop (pureProc Unit f) store10 limit fuel 5 s =
        some (10, [6, 7, 8, 9, 10],
          Except.ok (List.foldl f s
            [⟨6, []⟩, ⟨7, []⟩, ⟨8, []⟩, ⟨9, []⟩, ⟨10, []⟩]))) := by
  refine ⟨fun σ ε proc store limit fuel s => rfl, ?_, ?_⟩
  · intro σ ε proc store limit fuel cur s hp
    simp [reRunLoop, hp]
  · intro σ f s limit fuel hl hf
    have hs10 : StoreSorted store10 := by unfold StoreSorted; decide
    have hpend : pendingPackets store10 5 =
        [⟨6, []⟩, ⟨7, []⟩, ⟨8, []⟩, ⟨9, []⟩, ⟨10, []⟩] := rfl
    have hlen : (pendingPackets store10 5).length < fuel := by
      rw [hpend]
      simpa using hf
    have hchar := reRunLoop_pure f store10 limit hs10 hl fuel 5 s hlen
    rw [hchar, hpend]
    rfl

/-- Witness for C5: the scenario instance with page size 3, fuel 11 and a
processor that records processed ids. -/
theorem c5_rerun_full_replay_witness :
    reRunLoop (pureProc Unit (fun (s : List Nat) (p : RawPacket) => s ++ [p.id]))
        store10 3 11 5 [] =
      some (10, [6, 7, 8, 9, 10], Except.ok [6, 7, 8, 9, 10]) :=
  (c5_rerun_full_replay.2.2 (List Nat) (fun s p => s ++ [p.id]) [] 3 11
    (by decide) (by decide)).trans (by rfl)

/-- C9: full replay is deterministic and convergent: over the same sorted
store, with the derived state reset to the same initial state, two ReRun
invocations — even with different page sizes and different (sufficient)
fuels — return the same result, namely the fold of the processor over the
whole store content, so the derived output of both runs is identical. -/
theorem c9_replay_idempotent {σ : Type} (f : σ → RawPacket → σ)
    (store : List RawPacket) (limit1 limit2 fuel1 fuel2 : Nat) (s0 : σ)
    (hs : StoreSorted store) (h1 : 0 < limit1) (h2 : 0 < limit2)
    (hf1 : (pendingPackets store 0).length < fuel1)
    (hf2 : (pendingPackets store 0).length < fuel2) :
    reRunCommand (pureProc Unit f) store limit1 fuel1 s0 =
      reRunCommand (pureProc Unit f) store limit2 fuel2 s0 ∧
    reRunCommand (pureProc Unit f) store limit1 fuel1 s0 =
      some ((pendingPackets store 0).foldl (fun _ p => p.id) 0,
            (pendingPackets store 0).map RawPacket.id,
            Except.ok ((pendingPackets store 0).foldl f s0)) := by
  have e1 := reRunLoop_pure f store limit1 hs h1 fuel1 0 s0 hf1
  have e2 := reRunLoop_pure f store limit2 hs h2 fuel2 0 s0 hf2
  constructor
  · unfold reRunCommand
    rw [e1, e2]
  · unfold reRunCommand
    rw [e1]

/-- Witness for C9: two full replays of the ten packet store with page
sizes 3 and 7 produce the same derived output. -/
theorem c9_replay_idempotent_witness :
    reRunCommand (pureProc Unit (fun (s : List Nat) (p : RawPacket) => s ++ [p.id]))
        store10 3 11 [] =
      reRunCommand (pureProc Unit (fun (s : List Nat) (p : RawPacket) => s ++ [p.id]))
        store10 7 12 [] ∧
    reRunCommand (pureProc Unit (fun (s : List Nat) (p : RawPacket) => s ++ [p.id]))
        store10 3 11 [] =
      some (10, [1, 2, 3, 4, 5, 6, 7, 8, 9, 10],
        Except.ok [1, 2, 3, 4, 5, 6, 7, 8, 9, 10]) := by
  have h := c9_replay_idempotent (fun (s : List Nat) (p : RawPacket) => s ++ [p.id])
    store10 3 7 11 12 [] (by unfold StoreSorted; decide)
    (by decide) (by decide) (by decide) (by decide)
  exact ⟨h.1, h.2.trans (by rfl)⟩
